import Mathlib

/-!
Shallow embedding of the mishudark/errors Go package (src/errors.go) and
proofs about its specification.

Modelling conventions:
* Go `error` interface values are embedded as `Option GoErr`: `none` is the
  nil interface, `GoErr.record` is a non-nil `*Error` value, `GoErr.plain`
  is any other non-nil error (e.g. `*errorString` built by `New`/`Errorf`),
  carrying only its `Error()` text, which is all the package reads from it.
* Go strings are lists of characters (`String.data`).  `strings.Index`
  returns a byte offset, but the only needle used is the single ASCII byte
  `":"`, which in UTF-8 never occurs inside a multi-byte sequence, so the
  character-level index and the byte-level slice agree.
* `MetaData` is `map[string]interface{}`; the embedding specializes the
  values to strings (all the claims need) and carries the identity of the
  underlying map in `id`: Go map assignment copies the reference, never the
  contents, so two fields holding equal `id` denote the very same mapping.
* The nil-pointer dereference that Go performs when a nil `*Error` is
  passed to `E` (at `copy := *opt`) is represented by `Except.error`.
-/

namespace Mishudark

/-- Kind of error, `type Kind uint8` with the iota constants of
src/errors.go lines 40-54.  Go's `IO` is spelled `Io` here.  The Go type is
a `uint8`, but the package treats the 13 named constants as a closed
enumeration (the `String()` default branch for other numerals is
unreachable from the constants). -/
inductive Kind where
  | Unknown
  | Invalid
  | Permission
  | Io
  | Duplicated
  | NotExist
  | Private
  | Internal
  | Decrypt
  | Unmarshal
  | Transient
  | Unsupported
  | NotAcceptable
deriving DecidableEq, Repr

/-- Ordinal value of each kind: the iota numbering of the const block. -/
def Kind.code : Kind → Nat
  | .Unknown => 0
  | .Invalid => 1
  | .Permission => 2
  | .Io => 3
  | .Duplicated => 4
  | .NotExist => 5
  | .Private => 6
  | .Internal => 7
  | .Decrypt => 8
  | .Unmarshal => 9
  | .Transient => 10
  | .Unsupported => 11
  | .NotAcceptable => 12

/-- The `func (k Kind) String() string` label table (lines 57-87). -/
def Kind.string : Kind → String
  | .Unknown => "Unknown error"
  | .Invalid => "invalid operation"
  | .Permission => "permission denied"
  | .Io => "I/O error"
  | .Duplicated => "item already exists"
  | .NotExist => "item does not exist"
  | .Private => "information withheld"
  | .Internal => "internal error"
  | .Decrypt => "invalid encryption"
  | .Unmarshal => "invalid data"
  | .Transient => "transient error"
  | .Unsupported => "unsupported"
  | .NotAcceptable => "not accepted"

/-- The `func (k Kind) StatusCode() int` table (lines 90-115), with the
HTTP numerals inlined. -/
def Kind.statusCode : Kind → Nat
  | .Invalid => 400
  | .Decrypt => 400
  | .Unmarshal => 400
  | .Permission => 401
  | .Private => 401
  | .Transient => 503
  | .NotExist => 404
  | .Unsupported => 415
  | .NotAcceptable => 406
  | .Duplicated => 409
  | .Unknown => 500
  | .Internal => 500
  | .Io => 500

/-- `type MetaData map[string]interface{}` (line 12).  `id` is the identity
of the underlying Go map object (assignment shares it), `entries` its
contents, specialized to string values. -/
structure MetaData where
  id : Nat
  entries : List (String × String)
deriving DecidableEq, Repr

/-- A non-nil Go error value as seen by this package: either a `*Error`
record (struct `Error`, lines 17-27: Kind, message `s`, cause, Meta) or any
other error, of which only the `Error()` text is observable.  The `cause`
field is `error`, hence `Option`: nil is representable (though `E` never
builds it). -/
inductive GoErr where
  | record (kind : Kind) (s : String) (cause : Option GoErr) (meta : Option MetaData)
  | plain (s : String)

/-- The method `func (e *Error) Error() string` (lines 198-205):
`str := e.s; if str != "" { str += ": " }; return str + e.cause.Error()`.
Calling it on a record whose cause is the nil interface faults in Go
(method call on nil), which the embedding renders as `none`. -/
def GoErr.errorMsg : GoErr → Option String
  | .plain s => some s
  | .record _ _ none _ => none
  | .record _ s (some c) _ =>
    match c.errorMsg with
    | none => none
    | some rest => some ((if s = "" then "" else s ++ ": ") ++ rest)

/-- Index of the first `':'`, if any. -/
def indexOfColon : List Char → Option Nat
  | [] => none
  | c :: cs => if c = ':' then some 0 else (indexOfColon cs).map (· + 1)

/-- `strings.Index(str, ":")` of line 189: Go returns the byte index of the
first `":"`, or `-1` when absent. -/
def goIndexColon (l : List Char) : Int :=
  match indexOfColon l with
  | some i => (i : Int)
  | none => -1

/-- The slicing body of `func (e *Error) Msg() string` (lines 187-195):
`pos := strings.Index(str, ":"); if pos == -1 { pos = len(str) };
return str[:pos]`. -/
def msgTrunc (str : String) : String :=
  let pos : Int := goIndexColon str.data
  let pos : Int := if pos = -1 then (str.data.length : Int) else pos
  String.mk (str.data.take pos.toNat)

/-- The method `Msg()` itself: it first renders `e.Error()` (so it inherits
the nil-cause fault, hence `Option`), then truncates. -/
def GoErr.msg (e : GoErr) : Option String :=
  (e.errorMsg).map msgTrunc

/-- Character-level restatement of a truncation at the first `':'`:
keep characters until a colon is met. -/
def truncAtColon : List Char → List Char
  | [] => []
  | c :: cs => if c = ':' then [] else c :: truncAtColon cs

/-- String form of `truncAtColon`. -/
def specTruncColon (s : String) : String :=
  String.mk (truncAtColon s.data)

/-- Truncation at the first occurrence of the two-character separator
`": "`, following the specification words for the short message ("truncates
at (and excludes) the first `\": \"` separator found").  This is the
spec-side definition, to be compared against the code-side `msgTrunc`. -/
def truncAtColonSpace : List Char → List Char
  | [] => []
  | [c] => [c]
  | c1 :: c2 :: cs =>
    if c1 = ':' ∧ c2 = ' ' then [] else c1 :: truncAtColonSpace (c2 :: cs)

/-- String form of `truncAtColonSpace`. -/
def specTruncColonSpace (s : String) : String :=
  String.mk (truncAtColonSpace s.data)

/-- `func Cause(err error) error` (lines 269-282): loop unwrapping through
the `causer` capability.  Within this package only `*Error` exposes
`Cause() error` (lines 208-210, returning `e.cause`), so one step of the
loop replaces a record by its cause field; the loop stops at nil or at a
value without the capability. -/
def Cause : Option GoErr → Option GoErr
  | none => none
  | some (.plain s) => some (.plain s)
  | some (.record _ _ c _) => Cause c

/-- Whether a value exposes the `causer` capability (only `*Error` does). -/
def exposesCause : Option GoErr → Bool
  | some (.record _ _ _ _) => true
  | _ => false

/-- `func IsKind(err error, kind Kind) bool` (lines 287-292): a type
assertion to `*Error`, then `e.Kind == kind`; every other shape gives
false. -/
def IsKind (err : Option GoErr) (kind : Kind) : Bool :=
  match err with
  | some (.record k _ _ _) => k = kind
  | _ => false

/-! ### The builder `E` (lines 137-182) -/

/-- One `interface{}` argument of `E`, by the shapes its type switch
distinguishes (lines 140-164).

* `str`, `kind`, `meta`: the `string`, `Kind` and `MetaData` cases.  The
  `map[string]interface{}` case (copies into a fresh `MetaData`) is not
  separately modelled: no claim produces an unnamed map argument.
* `errVal e`: a non-nil error value; a `GoErr.record` lands in the
  `*Error` case (which stores a copy of the struct, value-identical in the
  embedding), a `GoErr.plain` in the `error` case.
* `nilRecordPtr`: a nil pointer of type `*Error`; the switch selects the
  `*Error` case and `copy := *opt` dereferences the nil pointer.
* `nilArg`: an untyped nil interface; it matches no case and is skipped. -/
inductive Arg where
  | str (s : String)
  | kind (k : Kind)
  | meta (m : MetaData)
  | errVal (e : GoErr)
  | nilRecordPtr
  | nilArg

/-- A Go run-time fault. -/
inductive GoPanic where
  | nilDeref
deriving DecidableEq, Repr

/-- The mutable record `e := &Error{}` that the loop of `E` fills
(line 138); field names match the Go struct, zero-valued start. -/
structure EState where
  kind : Kind
  s : String
  meta : Option MetaData
  cause : Option GoErr

/-- The zero value `&Error{}`. -/
def initState : EState :=
  { kind := Kind.Unknown, s := "", meta := none, cause := none }

/-- One iteration of the argument loop (lines 140-164). -/
def step (st : EState) : Arg → Except GoPanic EState
  | .str s => .ok { st with s := s }
  | .kind k => .ok { st with kind := k }
  | .meta m => .ok { st with meta := some m }
  | .errVal e => .ok { st with cause := some e }
  | .nilRecordPtr => .error .nilDeref
  | .nilArg => .ok st

/-- The same iteration with the fault pruned away (used to reason about
argument lists free of nil `*Error` pointers; on `nilRecordPtr` it is the
identity, a case the equivalence lemma never reaches). -/
def pstep (st : EState) : Arg → EState
  | .str s => { st with s := s }
  | .kind k => { st with kind := k }
  | .meta m => { st with meta := some m }
  | .errVal e => { st with cause := some e }
  | .nilRecordPtr => st
  | .nilArg => st

/-- The tail of `E` after the loop (lines 166-181): return nil on nil
cause; otherwise inherit kind and Meta from a `*Error` cause, then return
the record. -/
def finalize (st : EState) : Option GoErr :=
  match st.cause with
  | none => none
  | some c =>
    let st :=
      match c with
      | .record kc _ _ mc =>
        let st := if st.kind = Kind.Unknown then { st with kind := kc } else st
        if st.meta = none then { st with meta := mc } else st
      | .plain _ => st
    some (.record st.kind st.s st.cause st.meta)

/-- `func E(args ...interface{}) error` (lines 137-182). -/
def E (args : List Arg) : Except GoPanic (Option GoErr) :=
  (List.foldlM step initState args).map finalize

/-- Whether an argument list contains a nil `*Error` pointer (the only
faulting shape). -/
def hasNilPtr (args : List Arg) : Bool :=
  args.any fun a =>
    match a with
    | .nilRecordPtr => true
    | _ => false

/-- Last value that `f` extracts from the argument list, scanning left to
right; what a field set by every matching loop iteration holds at the
end. -/
def lastSome {β : Type} (f : Arg → Option β) : List Arg → Option β
  | [] => none
  | a :: l =>
    match lastSome f l with
    | some b => some b
    | none => f a

/-- The message an argument contributes (`case string`). -/
def argStr : Arg → Option String
  | .str s => some s
  | _ => none

/-- The kind an argument contributes (`case Kind`). -/
def argKind : Arg → Option Kind
  | .kind k => some k
  | _ => none

/-- The Meta field value an argument contributes (`case MetaData` stores
`some m`). -/
def argMeta : Arg → Option (Option MetaData)
  | .meta m => some (some m)
  | _ => none

/-- The cause field value an argument contributes (`case *Error` and
`case error` store `some e`). -/
def argCause : Arg → Option (Option GoErr)
  | .errVal e => some (some e)
  | _ => none

/-! ### JSON serialization, `func (e *Error) MarshalJSON` (lines 220-232) -/

/-- Lowercase hexadecimal digit, as `encoding/json` emits in `\u00XX`. -/
def hexDigit (n : Nat) : String :=
  if n = 0 then "0" else if n = 1 then "1" else if n = 2 then "2"
  else if n = 3 then "3" else if n = 4 then "4" else if n = 5 then "5"
  else if n = 6 then "6" else if n = 7 then "7" else if n = 8 then "8"
  else if n = 9 then "9" else if n = 10 then "a" else if n = 11 then "b"
  else if n = 12 then "c" else if n = 13 then "d" else if n = 14 then "e"
  else "f"

/-- How Go's `encoding/json` escapes one character inside a string literal
(default encoder: HTML-escapes `<`, `>`, `&`, escapes `"`, `\`, control
characters and U+2028/U+2029). -/
def jsonEscapeChar (c : Char) : String :=
  if c = '"' then "\\\""
  else if c = '\\' then "\\\\"
  else if c = '\n' then "\\n"
  else if c = '\r' then "\\r"
  else if c = '\t' then "\\t"
  else if c = '<' then "\\u003c"
  else if c = '>' then "\\u003e"
  else if c = '&' then "\\u0026"
  else if c.toNat < 32 then
    "\\u00" ++ hexDigit (c.toNat / 16) ++ hexDigit (c.toNat % 16)
  else if c.toNat = 0x2028 then "\\u2028"
  else if c.toNat = 0x2029 then "\\u2029"
  else String.singleton c

/-- JSON string-body escaping of a whole string. -/
def jsonEscape (s : String) : String :=
  String.join (s.data.map jsonEscapeChar)

/-- Byte-wise comparison of Go strings, the order `encoding/json` sorts map
keys in (on the claims' ASCII keys, character order and byte order
agree). -/
def charListLe : List Char → List Char → Bool
  | [], _ => true
  | _ :: _, [] => false
  | a :: as, b :: bs =>
    if a < b then true else if b < a then false else charListLe as bs

/-- Insertion of one key/value pair into a key-sorted list. -/
def insertByKey (p : String × String) : List (String × String) → List (String × String)
  | [] => [p]
  | q :: l => if charListLe p.1.data q.1.data then p :: q :: l else q :: insertByKey p l

/-- Key-sorted copy of the entries (Go marshals map keys in sorted
order). -/
def sortByKey : List (String × String) → List (String × String)
  | [] => []
  | p :: l => insertByKey p (sortByKey l)

/-- JSON object for a `MetaData` mapping. -/
def marshalMeta (m : MetaData) : String :=
  "\x7b" ++
    String.intercalate ","
      ((sortByKey m.entries).map fun p =>
        "\"" ++ jsonEscape p.1 ++ "\":\"" ++ jsonEscape p.2 ++ "\"") ++
  "\x7d"

/-- `MarshalJSON` (lines 220-232): the anonymous struct has fields
`Detail MetaData` with tag `json:"detail,omitempty"`, then `Type string`
(`e.Kind.String()`), `Error string` (`e.Msg()`), `Code Kind` (the uint8
ordinal), marshalled in declaration order; `omitempty` drops a nil or
empty map.  The method belongs to `*Error` only, and it inherits the
nil-cause fault of `Msg()`. -/
def GoErr.marshalJSON : GoErr → Option String
  | .plain _ => none
  | .record k s c m =>
    (GoErr.msg (.record k s c m)).map fun em =>
      "\x7b" ++
        (match m with
         | none => ""
         | some md =>
           if md.entries = [] then ""
           else "\"detail\":" ++ marshalMeta md ++ ",") ++
        "\"type\":\"" ++ jsonEscape k.string ++ "\"," ++
        "\"error\":\"" ++ jsonEscape em ++ "\"," ++
        "\"code\":" ++ toString k.code ++
      "\x7d"

/-! ### Concrete values used by the claims (from spec.md §8 / the tests) -/

/-- The leaf `New("network unreachable")`. -/
def leafNU : GoErr := .plain "network unreachable"

/-- `e1 = E(leaf, "io error", IO)`. -/
def chainRec1 : GoErr := .record .Io "io error" (some leafNU) none

/-- `e2 = E(e1, "can't unmarshal bar", Unmarshal)`. -/
def chainRec2 : GoErr := .record .Unmarshal "can't unmarshal bar" (some chainRec1) none

/-- `e3 = E(e2, "invalid key", Decrypt)`. -/
def chainRec3 : GoErr := .record .Decrypt "invalid key" (some chainRec2) none

/-- `e4 = E(e3, "no part of group", Permission)`. -/
def chainRec4 : GoErr := .record .Permission "no part of group" (some chainRec3) none

/-- A record whose own message `"a:b"` contains a colon not followed by a
space, wrapping the plain error `"x"`. -/
def colonMsgRec : GoErr := .record .Unknown "a:b" (some (.plain "x")) none

/-- `MetaData{"foo": "bar"}`. -/
def metaFooBar : MetaData := ⟨0, [("foo", "bar")]⟩

/-- The record built by `E(New("foo"), "network latency", IO,
MetaData{"foo":"bar"})`. -/
def serializeRec : GoErr :=
  .record .Io "network latency" (some (.plain "foo")) (some metaFooBar)

/-- A record carrying an empty (but non-nil) `MetaData` mapping. -/
def emptyMetaRec : GoErr :=
  .record .Io "io error" (some (.plain "network unreachable")) (some ⟨7, []⟩)

/-- An inner record of kind `IO` without metadata, as produced by
`E(e, KindIO)` and wrapped again in the kind-inheritance examples. -/
def innerKindRec : GoErr := .record .Io "inner" (some (.plain "e")) none

/-- An inner record of kind `IO` carrying a metadata mapping, wrapped again
in the metadata-inheritance examples. -/
def innerMetaRec : GoErr :=
  .record .Io "inner" (some (.plain "e")) (some ⟨3, [("k", "v")]⟩)

/-- A metadata mapping supplied directly by a caller. -/
def suppliedMeta : MetaData := ⟨9, [("a", "b")]⟩

/-! ### Lemmas about the builder loop -/

/-- On an argument list without a nil `*Error` pointer, the loop never
faults and agrees with its pure version. -/
theorem foldlM_ok (args : List Arg) (h : hasNilPtr args = false) :
    ∀ st, List.foldlM step st args = Except.ok (List.foldl pstep st args) := by
  induction args with
  | nil => intro st; rfl
  | cons a l ih =>
    have hl : hasNilPtr l = false := by
      have h2 := h
      unfold hasNilPtr at h2 ⊢
      rw [List.any_cons, Bool.or_eq_false_iff] at h2
      exact h2.2
    have ha : a ≠ Arg.nilRecordPtr := by
      intro e
      subst e
      simp [hasNilPtr, List.any_cons] at h
    intro st
    cases a with
    | nilRecordPtr => exact absurd rfl ha
    | str s => simpa [List.foldlM_cons, step, pstep] using ih hl _
    | kind k => simpa [List.foldlM_cons, step, pstep] using ih hl _
    | meta m => simpa [List.foldlM_cons, step, pstep] using ih hl _
    | errVal e => simpa [List.foldlM_cons, step, pstep] using ih hl _
    | nilArg => simpa [List.foldlM_cons, step, pstep] using ih hl _

/-- The message field after the loop holds the last string argument. -/
theorem foldl_s (args : List Arg) :
    ∀ st : EState, (List.foldl pstep st args).s = (lastSome argStr args).getD st.s := by
  induction args with
  | nil => intro st; rfl
  | cons a l ih =>
    intro st
    rw [List.foldl_cons, ih]
    cases hl : lastSome argStr l with
    | some b => simp [lastSome, hl]
    | none => cases a <;> simp [lastSome, hl, argStr, pstep]

/-- The kind field after the loop holds the last Kind argument. -/
theorem foldl_kind (args : List Arg) :
    ∀ st : EState, (List.foldl pstep st args).kind = (lastSome argKind args).getD st.kind := by
  induction args with
  | nil => intro st; rfl
  | cons a l ih =>
    intro st
    rw [List.foldl_cons, ih]
    cases hl : lastSome argKind l with
    | some b => simp [lastSome, hl]
    | none => cases a <;> simp [lastSome, hl, argKind, pstep]

/-- The Meta field after the loop holds the last MetaData argument. -/
theorem foldl_meta (args : List Arg) :
    ∀ st : EState, (List.foldl pstep st args).meta = (lastSome argMeta args).getD st.meta := by
  induction args with
  | nil => intro st; rfl
  | cons a l ih =>
    intro st
    rw [List.foldl_cons, ih]
    cases hl : lastSome argMeta l with
    | some b => simp [lastSome, hl]
    | none => cases a <;> simp [lastSome, hl, argMeta, pstep]

/-- The cause field after the loop holds the last error argument. -/
theorem foldl_cause (args : List Arg) :
    ∀ st : EState, (List.foldl pstep st args).cause = (lastSome argCause args).getD st.cause := by
  induction args with
  | nil => intro st; rfl
  | cons a l ih =>
    intro st
    rw [List.foldl_cons, ih]
    cases hl : lastSome argCause l with
    | some b => simp [lastSome, hl]
    | none => cases a <;> simp [lastSome, hl, argCause, pstep]

/-- Full characterization of `E` on non-faulting argument lists: the
result is `finalize` of the four last-wins field values. -/
theorem E_char (args : List Arg) (h : hasNilPtr args = false) :
    E args = Except.ok (finalize
      { kind := (lastSome argKind args).getD Kind.Unknown,
        s := (lastSome argStr args).getD "",
        meta := (lastSome argMeta args).getD none,
        cause := (lastSome argCause args).getD none }) := by
  have hst : List.foldl pstep initState args =
      { kind := (lastSome argKind args).getD Kind.Unknown,
        s := (lastSome argStr args).getD "",
        meta := (lastSome argMeta args).getD none,
        cause := (lastSome argCause args).getD none } := by
    have h1 := foldl_kind args initState
    have h2 := foldl_s args initState
    have h3 := foldl_meta args initState
    have h4 := foldl_cause args initState
    cases hE : List.foldl pstep initState args with
    | mk k s m c =>
      rw [hE] at h1 h2 h3 h4
      simp only [initState] at h1 h2 h3 h4
      simp [h1, h2, h3, h4]
  unfold E
  rw [foldlM_ok args h initState, hst]
  rfl

/-! ### Lemmas about the short-message truncation -/

/-- The byte-index slicing of `Msg()` computes the prefix before the first
colon. -/
theorem msgTrunc_eq_specTruncColon (s : String) : msgTrunc s = specTruncColon s := by
  unfold msgTrunc specTruncColon goIndexColon
  refine congrArg String.mk ?_
  induction s.data with
  | nil => rfl
  | cons c cs ih =>
    by_cases hc : c = ':'
    · simp [indexOfColon, hc, truncAtColon]
    · cases hcs : indexOfColon cs with
      | some i =>
        rw [hcs] at ih
        have hi : ¬((i : Int) = -1) := by omega
        rw [if_neg hi] at ih
        have ht0 : ((i : Int)).toNat = i := by omega
        rw [ht0] at ih
        have hi1 : ¬(((i + 1 : Nat) : Int) = -1) := by omega
        have ht1 : (((i + 1 : Nat) : Int)).toNat = i + 1 := by omega
        simp only [indexOfColon, hcs, Option.map_some', if_neg hc]
        rw [if_neg hi1, ht1, List.take_succ_cons, truncAtColon, if_neg hc, ih]
      | none =>
        rw [hcs] at ih
        rw [if_pos rfl] at ih
        have hlen : ((cs.length : Int)).toNat = cs.length := by omega
        rw [hlen] at ih
        simp only [indexOfColon, hcs, Option.map_none', if_neg hc, List.length_cons]
        rw [if_pos trivial]
        have ht : (((cs.length + 1 : Nat) : Int)).toNat = cs.length + 1 := by omega
        rw [ht, List.take_succ_cons, truncAtColon, if_neg hc, ih]

/-- A string without a colon is left whole by the colon truncation. -/
theorem truncAtColon_of_not_mem (l : List Char) : ':' ∉ l → truncAtColon l = l := by
  induction l with
  | nil => intro _; rfl
  | cons c cs ih =>
    intro h
    have hc : ¬(c = ':') := fun e => h (by rw [e]; exact List.mem_cons_self ':' cs)
    have hcs : ':' ∉ cs := fun m => h (List.mem_cons_of_mem c m)
    rw [truncAtColon, if_neg hc, ih hcs]

/-- `finalize` on a state whose cause is a plain error: no inheritance. -/
theorem finalize_plain (st : EState) (t : String) (h : st.cause = some (.plain t)) :
    finalize st = some (.record st.kind st.s (some (.plain t)) st.meta) := by
  unfold finalize
  rw [h]
  simp [h]

/-- `finalize` on a state whose cause is an `Error` record: the two
inheritance conditionals of lines 171-179. -/
theorem finalize_record (st : EState) (kc : Kind) (sc : String) (cc : Option GoErr)
    (mc : Option MetaData) (h : st.cause = some (.record kc sc cc mc)) :
    finalize st = some (.record (if st.kind = Kind.Unknown then kc else st.kind) st.s
      (some (.record kc sc cc mc)) (if st.meta = none then mc else st.meta)) := by
  unfold finalize
  rw [h]
  by_cases hk : st.kind = Kind.Unknown <;> by_cases hm : st.meta = none <;>
    simp [hk, hm, h]

/-- `E` on a non-faulting argument list whose last error argument is the
non-nil value `c`. -/
theorem E_build (args : List Arg) (c : GoErr) (h : hasNilPtr args = false)
    (hc : lastSome argCause args = some (some c)) :
    E args = Except.ok (finalize
      { kind := (lastSome argKind args).getD Kind.Unknown,
        s := (lastSome argStr args).getD "",
        meta := (lastSome argMeta args).getD none,
        cause := some c }) := by
  rw [E_char args h, hc]
  simp only [Option.getD_some]

/-- The result of `Cause` never exposes the causer capability. -/
theorem exposes_Cause_false : ∀ x : Option GoErr, exposesCause (Cause x) = false
  | none => by rw [Cause]; rfl
  | some (.plain _) => by rw [Cause]; rfl
  | some (.record _ _ c _) => by rw [Cause]; exact exposes_Cause_false c

/-- A value without the causer capability is a fixed point of `Cause`. -/
theorem cause_fixed (y : Option GoErr) (h : exposesCause y = false) : Cause y = y := by
  cases y with
  | none => rw [Cause]
  | some e =>
    cases e with
    | plain s => rw [Cause]
    | record k s c m => simp [exposesCause] at h

/-! ### The claims -/

/-- C1, counterexample to the claim as stated: the record with message
`"a:b"` over the plain cause `"x"` has chained message `"a:b: x"`, whose
first `": "` separator sits after `"a:b"`, so the claim predicts
`Msg() = "a:b"`; the code truncates at the first `":"` and returns
`"a"`. -/
theorem msg_colon_space_counterexample :
    GoErr.errorMsg colonMsgRec = some "a:b: x"
    ∧ specTruncColonSpace "a:b: x" = "a:b"
    ∧ GoErr.msg colonMsgRec = some "a"
    ∧ ("a" : String) ≠ "a:b" :=
  ⟨rfl, rfl, rfl, by decide⟩

/-- C1 (amended): `Msg()` equals `Error()` truncated at, and excluding,
the first occurrence of the single character `':'` (space or not after
it); when the chained message contains no colon at all, `Msg()` returns
the entire chained message. -/
theorem msg_truncates_at_first_colon :
    (∀ e : GoErr, e.msg = e.errorMsg.map specTruncColon)
    ∧ (∀ s : String, ':' ∉ s.data → msgTrunc s = s) := by
  constructor
  · intro e
    cases h : e.errorMsg with
    | none => simp [GoErr.msg, h]
    | some t => simp [GoErr.msg, h, msgTrunc_eq_specTruncColon]
  · intro s hs
    rw [msgTrunc_eq_specTruncColon]
    unfold specTruncColon
    rw [truncAtColon_of_not_mem s.data hs]

/-- Witness for C1's amended theorem at concrete inputs. -/
theorem msg_truncates_at_first_colon_witness :
    GoErr.msg colonMsgRec = (GoErr.errorMsg colonMsgRec).map specTruncColon
    ∧ msgTrunc "abc" = "abc" :=
  ⟨msg_truncates_at_first_colon.1 colonMsgRec,
   msg_truncates_at_first_colon.2 "abc" (by decide)⟩

/-- C2: `Error()` renders `"<message>: <cause rendering>"`, dropping the
separator when the message is empty, and the concrete four-level chain over
the leaf `"network unreachable"` renders to the expected full string. -/
theorem error_chained_message :
    (∀ (k : Kind) (s : String) (c : GoErr) (m : Option MetaData),
        GoErr.errorMsg (.record k s (some c) m)
          = (GoErr.errorMsg c).map (fun rest => (if s = "" then "" else s ++ ": ") ++ rest))
    ∧ E [.errVal leafNU, .str "io error", .kind .Io] = .ok (some chainRec1)
    ∧ E [.errVal chainRec1, .str "can't unmarshal bar", .kind .Unmarshal] = .ok (some chainRec2)
    ∧ E [.errVal chainRec2, .str "invalid key", .kind .Decrypt] = .ok (some chainRec3)
    ∧ E [.errVal chainRec3, .str "no part of group", .kind .Permission] = .ok (some chainRec4)
    ∧ GoErr.errorMsg chainRec4
        = some "no part of group: invalid key: can't unmarshal bar: io error: network unreachable" := by
  refine ⟨?_, rfl, rfl, rfl, rfl, rfl⟩
  intro k s c m
  cases h : GoErr.errorMsg c with
  | none => simp [GoErr.errorMsg, h]
  | some rest => simp [GoErr.errorMsg, h]

/-- C3: when no (non-nil) error-shaped argument is present, `E` returns
nil, never a zero-valued record; in particular `E(nil)` and
`E(msg, kind)` return nil. -/
theorem E_nil_propagation :
    (∀ args : List Arg, hasNilPtr args = false → lastSome argCause args = none →
        E args = .ok none)
    ∧ E [.nilArg] = .ok none
    ∧ (∀ (s : String) (k : Kind), E [.str s, .kind k] = .ok none) := by
  refine ⟨?_, rfl, fun s k => rfl⟩
  intro args h hc
  rw [E_char args h, hc]
  rfl

/-- Witness for C3 at the concrete argument list `[nil]`. -/
theorem E_nil_propagation_witness :
    E [Arg.nilArg] = .ok none :=
  E_nil_propagation.1 [Arg.nilArg] rfl rfl

/-- C4: each argument shape independently retains only its last
occurrence — in general the built record's message is the last string
argument, its cause the last error argument, and its metadata the last
MetaData argument; on the concrete lists `E(e, "a", "b")` keeps message
`"b"`, `E(e, k1, k2)` keeps kind `k2`, and `E(e, m1, m2)` keeps metadata
`m2`. -/
theorem E_last_wins :
    (∀ (args : List Arg) (c : GoErr), hasNilPtr args = false →
        lastSome argCause args = some (some c) →
        ∃ k m, E args = .ok (some (.record k ((lastSome argStr args).getD "") (some c) m)))
    ∧ (∀ (args : List Arg) (c : GoErr) (m : MetaData), hasNilPtr args = false →
        lastSome argCause args = some (some c) →
        lastSome argMeta args = some (some m) →
        ∃ k, E args = .ok (some (.record k ((lastSome argStr args).getD "") (some c) (some m))))
    ∧ (∀ s : String, E [.errVal (.plain s), .str "a", .str "b"]
        = .ok (some (.record .Unknown "b" (some (.plain s)) none)))
    ∧ (∀ (s : String) (k1 k2 : Kind), E [.errVal (.plain s), .kind k1, .kind k2]
        = .ok (some (.record k2 "" (some (.plain s)) none)))
    ∧ (∀ (s : String) (m1 m2 : MetaData), E [.errVal (.plain s), .meta m1, .meta m2]
        = .ok (some (.record .Unknown "" (some (.plain s)) (some m2)))) := by
  refine ⟨?_, ?_, fun s => rfl, fun s k1 k2 => rfl, fun s m1 m2 => rfl⟩
  · intro args c h hc
    rw [E_build args c h hc]
    cases c with
    | plain t => exact ⟨_, _, congrArg Except.ok (finalize_plain _ t rfl)⟩
    | record kc sc cc mc => exact ⟨_, _, congrArg Except.ok (finalize_record _ kc sc cc mc rfl)⟩
  · intro args c m h hc hm
    rw [E_build args c h hc]
    cases c with
    | plain t =>
      refine ⟨(lastSome argKind args).getD Kind.Unknown, ?_⟩
      rw [finalize_plain _ t rfl]
      simp [hm]
    | record kc sc cc mc =>
      refine ⟨if (lastSome argKind args).getD Kind.Unknown = Kind.Unknown then kc
              else (lastSome argKind args).getD Kind.Unknown, ?_⟩
      rw [finalize_record _ kc sc cc mc rfl]
      simp [hm]

/-- Witness for C4's general parts at `E(plain "x", "a", "b")` (message)
and `E(plain "x", meta 1, meta 2)` (metadata). -/
theorem E_last_wins_witness :
    (∃ k m, E [Arg.errVal (GoErr.plain "x"), Arg.str "a", Arg.str "b"]
      = .ok (some (GoErr.record k
          ((lastSome argStr [Arg.errVal (GoErr.plain "x"), Arg.str "a", Arg.str "b"]).getD "")
          (some (GoErr.plain "x")) m)))
    ∧ (∃ k, E [Arg.errVal (GoErr.plain "x"), Arg.meta ⟨1, []⟩, Arg.meta ⟨2, []⟩]
      = .ok (some (GoErr.record k
          ((lastSome argStr [Arg.errVal (GoErr.plain "x"), Arg.meta ⟨1, []⟩, Arg.meta ⟨2, []⟩]).getD "")
          (some (GoErr.plain "x")) (some ⟨2, []⟩)))) :=
  ⟨E_last_wins.1 [Arg.errVal (GoErr.plain "x"), Arg.str "a", Arg.str "b"]
    (GoErr.plain "x") rfl rfl,
   E_last_wins.2.1 [Arg.errVal (GoErr.plain "x"), Arg.meta ⟨1, []⟩, Arg.meta ⟨2, []⟩]
    (GoErr.plain "x") ⟨2, []⟩ rfl rfl rfl⟩

/-- C5: when the resolved cause is itself a record, a missing (still
unknown) kind is inherited from it, while an explicit non-unknown kind is
kept. -/
theorem E_kind_inheritance :
    ∀ (args : List Arg) (kc : Kind) (sc : String) (cc : Option GoErr) (mc : Option MetaData),
      hasNilPtr args = false →
      lastSome argCause args = some (some (.record kc sc cc mc)) →
      (((lastSome argKind args).getD Kind.Unknown = Kind.Unknown →
          ∃ m, E args = .ok (some (.record kc ((lastSome argStr args).getD "")
            (some (.record kc sc cc mc)) m)))
        ∧ (∀ k : Kind, lastSome argKind args = some k → k ≠ Kind.Unknown →
          ∃ m, E args = .ok (some (.record k ((lastSome argStr args).getD "")
            (some (.record kc sc cc mc)) m)))) := by
  intro args kc sc cc mc h hc
  constructor
  · intro hk
    rw [E_build args _ h hc]
    refine ⟨if (lastSome argMeta args).getD none = none then mc
            else (lastSome argMeta args).getD none, ?_⟩
    rw [finalize_record _ kc sc cc mc rfl]
    simp [hk]
  · intro k hk hne
    rw [E_build args _ h hc]
    refine ⟨if (lastSome argMeta args).getD none = none then mc
            else (lastSome argMeta args).getD none, ?_⟩
    rw [finalize_record _ kc sc cc mc rfl]
    have hgd : (lastSome argKind args).getD Kind.Unknown = k := by rw [hk]; rfl
    simp [hgd, hne]

/-- Witness for C5 at `E(inner, "ctx")` (kind inherited) and
`E(inner, "ctx", Decrypt)` (kind overridden). -/
theorem E_kind_inheritance_witness :
    (∃ m, E [Arg.errVal innerKindRec, Arg.str "ctx"]
      = .ok (some (GoErr.record Kind.Io
          ((lastSome argStr [Arg.errVal innerKindRec, Arg.str "ctx"]).getD "")
          (some (GoErr.record Kind.Io "inner" (some (GoErr.plain "e")) none)) m)))
    ∧ (∃ m, E [Arg.errVal innerKindRec, Arg.str "ctx", Arg.kind Kind.Decrypt]
      = .ok (some (GoErr.record Kind.Decrypt
          ((lastSome argStr [Arg.errVal innerKindRec, Arg.str "ctx", Arg.kind Kind.Decrypt]).getD "")
          (some (GoErr.record Kind.Io "inner" (some (GoErr.plain "e")) none)) m))) :=
  ⟨(E_kind_inheritance [Arg.errVal innerKindRec, Arg.str "ctx"]
      Kind.Io "inner" (some (GoErr.plain "e")) none rfl rfl).1 rfl,
   (E_kind_inheritance [Arg.errVal innerKindRec, Arg.str "ctx", Arg.kind Kind.Decrypt]
      Kind.Io "inner" (some (GoErr.plain "e")) none rfl rfl).2 Kind.Decrypt rfl (by decide)⟩

/-- C6: when the resolved cause is a record and the caller supplied no
MetaData, the new record's Meta field is the wrapped record's Meta field
itself (the same mapping value, reference included); a supplied MetaData is
kept instead. -/
theorem E_meta_inheritance :
    ∀ (args : List Arg) (kc : Kind) (sc : String) (cc : Option GoErr) (mc : Option MetaData),
      hasNilPtr args = false →
      lastSome argCause args = some (some (.record kc sc cc mc)) →
      ((lastSome argMeta args = none →
          ∃ k, E args = .ok (some (.record k ((lastSome argStr args).getD "")
            (some (.record kc sc cc mc)) mc)))
        ∧ (∀ m : MetaData, lastSome argMeta args = some (some m) →
          ∃ k, E args = .ok (some (.record k ((lastSome argStr args).getD "")
            (some (.record kc sc cc mc)) (some m))))) := by
  intro args kc sc cc mc h hc
  constructor
  · intro hm
    rw [E_build args _ h hc]
    refine ⟨if (lastSome argKind args).getD Kind.Unknown = Kind.Unknown then kc
            else (lastSome argKind args).getD Kind.Unknown, ?_⟩
    rw [finalize_record _ kc sc cc mc rfl]
    simp [hm]
  · intro m hm
    rw [E_build args _ h hc]
    refine ⟨if (lastSome argKind args).getD Kind.Unknown = Kind.Unknown then kc
            else (lastSome argKind args).getD Kind.Unknown, ?_⟩
    rw [finalize_record _ kc sc cc mc rfl]
    simp [hm]

/-- Witness for C6 at `E(inner, "ctx")` (metadata inherited — the very
mapping `⟨3, [("k", "v")]⟩` of the inner record) and at
`E(inner, "ctx", suppliedMeta)` (metadata kept). -/
theorem E_meta_inheritance_witness :
    (∃ k, E [Arg.errVal innerMetaRec, Arg.str "ctx"]
      = .ok (some (GoErr.record k
          ((lastSome argStr [Arg.errVal innerMetaRec, Arg.str "ctx"]).getD "")
          (some (GoErr.record Kind.Io "inner" (some (GoErr.plain "e"))
            (some ⟨3, [("k", "v")]⟩)))
          (some ⟨3, [("k", "v")]⟩))))
    ∧ (∃ k, E [Arg.errVal innerMetaRec, Arg.str "ctx", Arg.meta suppliedMeta]
      = .ok (some (GoErr.record k
          ((lastSome argStr [Arg.errVal innerMetaRec, Arg.str "ctx", Arg.meta suppliedMeta]).getD "")
          (some (GoErr.record Kind.Io "inner" (some (GoErr.plain "e"))
            (some ⟨3, [("k", "v")]⟩)))
          (some suppliedMeta)))) :=
  ⟨(E_meta_inheritance [Arg.errVal innerMetaRec, Arg.str "ctx"]
      Kind.Io "inner" (some (GoErr.plain "e")) (some ⟨3, [("k", "v")]⟩) rfl rfl).1 rfl,
   (E_meta_inheritance [Arg.errVal innerMetaRec, Arg.str "ctx", Arg.meta suppliedMeta]
      Kind.Io "inner" (some (GoErr.plain "e")) (some ⟨3, [("k", "v")]⟩) rfl rfl).2
      suppliedMeta rfl⟩

/-- C7: the serialized form is `detail` (omitted when the mapping is nil or
empty), `type`, `error`, `code` in that order; the concrete build
`E(New("foo"), "network latency", IO, MetaData{"foo":"bar"})` serializes to
exactly the expected bytes, and both a nil and an empty mapping drop the
`detail` field. -/
theorem marshalJSON_serialization :
    E [.errVal (.plain "foo"), .str "network latency", .kind .Io, .meta metaFooBar]
        = .ok (some serializeRec)
    ∧ GoErr.marshalJSON serializeRec
        = some "\x7b\"detail\":\x7b\"foo\":\"bar\"\x7d,\"type\":\"I/O error\",\"error\":\"network latency\",\"code\":3\x7d"
    ∧ GoErr.marshalJSON chainRec1
        = some "\x7b\"type\":\"I/O error\",\"error\":\"io error\",\"code\":3\x7d"
    ∧ GoErr.marshalJSON emptyMetaRec
        = some "\x7b\"type\":\"I/O error\",\"error\":\"io error\",\"code\":3\x7d" :=
  ⟨rfl, rfl, rfl, rfl⟩

/-- C8: `IsKind(err, k)` is true exactly when `err` is an `*Error` record
of kind `k`; nil and plain errors give false for every kind. -/
theorem isKind_characterization :
    ∀ (err : Option GoErr) (k : Kind),
      (IsKind err k = true ↔ ∃ s c m, err = some (.record k s c m))
      ∧ IsKind none k = false
      ∧ (∀ s, IsKind (some (.plain s)) k = false) := by
  intro err k
  refine ⟨?_, rfl, fun s => rfl⟩
  constructor
  · intro h
    cases err with
    | none => simp [IsKind] at h
    | some e =>
      cases e with
      | plain s => simp [IsKind] at h
      | record k2 s c m =>
        simp [IsKind] at h
        exact ⟨s, c, m, by rw [h]⟩
  · rintro ⟨s, c, m, rfl⟩
    simp [IsKind]

/-- C9: `Cause` maps nil to nil, leaves a value without the causer
capability unchanged (hence is idempotent), unwraps a record to the
`Cause` of its cause field, and its result never exposes the capability
(it is the deepest such value). -/
theorem cause_unwrapping :
    Cause none = none
    ∧ (∀ s, Cause (some (.plain s)) = some (.plain s))
    ∧ (∀ x, Cause (Cause x) = Cause x)
    ∧ (∀ (k : Kind) (s : String) (c : Option GoErr) (m : Option MetaData),
        Cause (some (.record k s c m)) = Cause c)
    ∧ (∀ x, exposesCause (Cause x) = false) :=
  ⟨by rw [Cause],
   fun s => by rw [Cause],
   fun x => cause_fixed _ (exposes_Cause_false x),
   fun k s c m => by rw [Cause],
   exposes_Cause_false⟩

/-- C10: evaluation of the code at the failing input — passing a nil
`*Error` pointer to `E` reaches `copy := *opt` and faults with a nil
dereference instead of returning normally. -/
theorem E_nil_record_ptr_faults :
    E [Arg.nilRecordPtr] = .error GoPanic.nilDeref
    ∧ E [Arg.str "ctx", Arg.nilRecordPtr] = .error GoPanic.nilDeref :=
  ⟨rfl, rfl⟩

end Mishudark
